import Mathlib

/-!
Verification development for the dominant-color extraction engine in
`src/lib/color-extractor.ts`.

The engine's arithmetic is embedded exactly:
* pixel coordinates, pixel bytes and RGB components are integers in the source
  (bytes come from the RGBA buffer, averaged components pass through
  `Math.round`), so they are modelled with `ℕ`/`ℤ`;
* frequencies, percentages and area weights are modelled with `ℚ`, the exact
  arithmetic the source's formulas denote;
* LAB coordinates and the CIE94 distance are real-valued (the source uses
  `Math.pow`/`Math.sqrt`), so they are modelled with `ℝ`.

JavaScript `Map` iteration order is insertion order, so the color maps are
modelled as association lists updated in place / appended at the end, and
`Array.prototype.sort` is stable, matching `List.mergeSort`.
-/

/-- RGB triple as in `interface RGB` (source lines 19-23); every RGB value the
engine builds has integer components. -/
structure RGB where
  r : ℤ
  g : ℤ
  b : ℤ
deriving DecidableEq

/-- LAB triple as in `interface LAB` (source lines 25-29). -/
structure LAB where
  l : ℝ
  a : ℝ
  b : ℝ

/-- Result record as in `interface ColorResult` (source lines 31-37). -/
structure ColorResult where
  color : String
  rgb : RGB
  lab : LAB
  frequency : ℚ
  clusterSize : ℚ

/-- One grid section `{startX, startY, endX, endY}` as pushed by
`calculateGridSections` (source lines 278-331). -/
structure GridSection where
  startX : ℕ
  startY : ℕ
  endX : ℕ
  endY : ℕ
deriving DecidableEq

/-- Decoded image: width, height and the flat RGBA byte buffer
(`imageData.data`, row-major, 4 bytes per pixel). -/
structure ImageData where
  width : ℕ
  height : ℕ
  data : List ℕ

/-- Reads `imageData.data[i]` (out-of-range reads are irrelevant: the engine only
indexes inside the buffer). -/
def readByte (img : ImageData) (i : ℕ) : ℕ := img.data.getD i 0

/-- JavaScript `Math.round`: round half toward positive infinity. -/
def jsRound (q : ℚ) : ℤ := ⌊q + 1/2⌋

/-- Lowercase hex digit for a value below 16. -/
def hexChar (n : ℕ) : Char := if n < 10 then Char.ofNat (48 + n) else Char.ofNat (87 + n)

/-- Two lowercase hex digits of a byte (`toString(16).padStart(2, '0')` for
values in 0..255). -/
def byteHex (n : ℕ) : String := String.mk [hexChar (n / 16), hexChar (n % 16)]

/-- Embeds `toHex` inside `rgbToHex` (source lines 706-712): clamp to 0..255 and
render; the rounding step is the identity because all stored components are
integers. -/
def toHexByte (n : ℤ) : String := byteHex ((max 0 (min 255 n)).toNat)

/-- Embeds `rgbToHex` (source lines 706-712). -/
def rgbToHex (c : RGB) : String := "#" ++ toHexByte c.r ++ toHexByte c.g ++ toHexByte c.b

/-- Embeds `calculateGridSections` (source lines 278-331): full sections in row-major
order with a right-edge section per full row when `width % gridSize > 0`, then
a row of bottom-edge sections and a corner section when the respective
remainders are positive. -/
def calculateGridSections (width height gridSize : ℕ) : List GridSection :=
  let fullGridCols := width / gridSize
  let fullGridRows := height / gridSize
  let remainderWidth := width % gridSize
  let remainderHeight := height % gridSize
  ((List.range fullGridRows).flatMap (fun row =>
    ((List.range fullGridCols).map (fun col =>
      ⟨col * gridSize, row * gridSize, (col + 1) * gridSize, (row + 1) * gridSize⟩)) ++
    (if 0 < remainderWidth then
      [⟨fullGridCols * gridSize, row * gridSize, width, (row + 1) * gridSize⟩]
    else []))) ++
  (if 0 < remainderHeight then
    ((List.range fullGridCols).map (fun col =>
      ⟨col * gridSize, fullGridRows * gridSize, (col + 1) * gridSize, height⟩)) ++
    (if 0 < remainderWidth then
      [⟨fullGridCols * gridSize, fullGridRows * gridSize, width, height⟩]
    else [])
  else [])

/-- The section a pixel-grid cell index pair describes: half-open rectangle
clipped to the image. -/
def gridCell (width height gridSize cx cy : ℕ) : GridSection :=
  ⟨cx * gridSize, cy * gridSize, min ((cx + 1) * gridSize) width, min ((cy + 1) * gridSize) height⟩

/-- Number of section columns. -/
def gridCols (width gridSize : ℕ) : ℕ :=
  width / gridSize + (if 0 < width % gridSize then 1 else 0)

/-- Number of section rows. -/
def gridRows (height gridSize : ℕ) : ℕ :=
  height / gridSize + (if 0 < height % gridSize then 1 else 0)

/-- Row-major list of all clipped cells. -/
def canonicalSections (width height gridSize : ℕ) : List GridSection :=
  (List.range (gridRows height gridSize)).flatMap (fun cy =>
    (List.range (gridCols width gridSize)).map (fun cx => gridCell width height gridSize cx cy))

/-- Membership of a pixel in a section (all rectangles are half-open). -/
def containsPixel (s : GridSection) (x y : ℕ) : Prop :=
  s.startX ≤ x ∧ x < s.endX ∧ s.startY ≤ y ∧ y < s.endY

instance (s : GridSection) (x y : ℕ) : Decidable (containsPixel s x y) := by
  unfold containsPixel
  infer_instance

lemma lt_div_succ_mul (x S : ℕ) (hS : 0 < S) : x < (x / S + 1) * S := by
  have h1 := Nat.div_add_mod x S
  have h2 := Nat.mod_lt x hS
  calc x = S * (x / S) + x % S := h1.symm
    _ < S * (x / S) + S := by omega
    _ = (x / S + 1) * S := by ring

lemma div_lt_gridCols {x W S : ℕ} (hS : 0 < S) (hx : x < W) : x / S < gridCols W S := by
  unfold gridCols
  by_cases h : 0 < W % S
  · rw [if_pos h]
    have : x / S ≤ W / S := Nat.div_le_div_right (Nat.le_of_lt hx)
    omega
  · rw [if_neg h]
    have hmod : W % S = 0 := by omega
    have hdvd : W / S * S = W := Nat.div_mul_cancel (Nat.dvd_of_mod_eq_zero hmod)
    have hx' : x < W / S * S := by omega
    exact (Nat.div_lt_iff_lt_mul hS).mpr hx'

lemma div_lt_gridRows {y H S : ℕ} (hS : 0 < S) (hy : y < H) : y / S < gridRows H S :=
  div_lt_gridCols hS hy

/-- A clipped cell contains a pixel exactly when the pixel is inside the image
and the cell index is the pixel coordinate divided by the grid size. -/
lemma containsPixel_gridCell {W H S cx cy x y : ℕ} (hS : 0 < S) :
    containsPixel (gridCell W H S cx cy) x y ↔ (x < W ∧ y < H ∧ cx = x / S ∧ cy = y / S) := by
  unfold containsPixel gridCell
  simp only [lt_min_iff]
  constructor
  · rintro ⟨h1, ⟨h2, h2W⟩, h3, h4, h4H⟩
    have hcx : x / S = cx := Nat.div_eq_of_lt_le h1 h2
    have hcy : y / S = cy := Nat.div_eq_of_lt_le h3 h4
    exact ⟨h2W, h4H, hcx.symm, hcy.symm⟩
  · rintro ⟨hxW, hyH, rfl, rfl⟩
    refine ⟨Nat.div_mul_le_self x S, ⟨lt_div_succ_mul x S hS, hxW⟩,
      Nat.div_mul_le_self y S, lt_div_succ_mul y S hS, hyH⟩

lemma mem_canonicalSections {W H S : ℕ} {s : GridSection} :
    s ∈ canonicalSections W H S ↔
      ∃ cy < gridRows H S, ∃ cx < gridCols W S, s = gridCell W H S cx cy := by
  simp only [canonicalSections, List.mem_flatMap, List.mem_map, List.mem_range]
  constructor
  · rintro ⟨cy, hcy, cx, hcx, rfl⟩
    exact ⟨cy, hcy, cx, hcx, rfl⟩
  · rintro ⟨cy, hcy, cx, hcx, rfl⟩
    exact ⟨cy, hcy, cx, hcx, rfl⟩

lemma gridCell_inj {W H S cx cy cx' cy' : ℕ} (hS : 0 < S)
    (h : gridCell W H S cx cy = gridCell W H S cx' cy') : cx = cx' ∧ cy = cy' := by
  unfold gridCell at h
  injection h with h1 h2 _ _
  exact ⟨Nat.eq_of_mul_eq_mul_right hS h1, Nat.eq_of_mul_eq_mul_right hS h2⟩

lemma canonicalSections_nodup {W H S : ℕ} (hS : 0 < S) : (canonicalSections W H S).Nodup := by
  unfold canonicalSections
  rw [List.nodup_flatMap]
  constructor
  · intro cy _
    exact (List.nodup_range _).map_on (fun cx _ cx' _ h => (gridCell_inj hS h).1)
  · refine (List.pairwise_lt_range _).imp_of_mem ?_
    intro cy cy' _ _ hlt
    intro s hs hs'
    simp only [Function.comp, List.mem_map, List.mem_range] at hs hs'
    obtain ⟨cx, _, rfl⟩ := hs
    obtain ⟨cx', _, h⟩ := hs'
    exact absurd (gridCell_inj hS h.symm).2 (by omega)

lemma map_gridCell_row (W H S cy e : ℕ) (hS : 0 < S) (he : min ((cy + 1) * S) H = e) :
    (List.range (gridCols W S)).map (fun cx => gridCell W H S cx cy) =
      ((List.range (W / S)).map (fun col =>
        (⟨col * S, cy * S, (col + 1) * S, e⟩ : GridSection))) ++
      (if 0 < W % S then [(⟨(W / S) * S, cy * S, W, e⟩ : GridSection)] else []) := by
  unfold gridCols
  by_cases h : 0 < W % S
  · rw [if_pos h, if_pos h, List.range_succ, List.map_append]
    congr 1
    · refine List.map_congr_left ?_
      intro col hcol
      rw [List.mem_range] at hcol
      have hle : (col + 1) * S ≤ W := by
        have h1 : (col + 1) * S ≤ (W / S) * S := Nat.mul_le_mul_right S (by omega)
        have h2 : (W / S) * S ≤ W := Nat.div_mul_le_self W S
        omega
      unfold gridCell
      rw [min_eq_left hle, he]
    · have hge : W ≤ (W / S + 1) * S := by
        have h1 := Nat.div_add_mod W S
        have h2 : W % S < S := Nat.mod_lt W hS
        calc W = S * (W / S) + W % S := h1.symm
          _ ≤ S * (W / S) + S := by omega
          _ = (W / S + 1) * S := by ring
      unfold gridCell
      simp only [List.map_cons, List.map_nil]
      rw [min_eq_right hge, he]
  · rw [if_neg h, if_neg h, List.append_nil, Nat.add_zero]
    refine List.map_congr_left ?_
    intro col hcol
    rw [List.mem_range] at hcol
    have hmod : W % S = 0 := by omega
    have hdvd : W / S * S = W := Nat.div_mul_cancel (Nat.dvd_of_mod_eq_zero hmod)
    have hle : (col + 1) * S ≤ W := by
      have h1 : (col + 1) * S ≤ (W / S) * S := Nat.mul_le_mul_right S (by omega)
      omega
    unfold gridCell
    rw [min_eq_left hle, he]

/-- The section list the source builds is exactly the row-major list of clipped
cells. -/
lemma calculateGridSections_eq_canonical (W H S : ℕ) (hS : 0 < S) :
    calculateGridSections W H S = canonicalSections W H S := by
  simp only [calculateGridSections, canonicalSections, gridRows]
  by_cases hH : 0 < H % S
  · rw [if_pos hH, if_pos hH, List.range_succ, List.flatMap_append, List.flatMap_singleton]
    congr 1
    · refine (List.flatMap_congr ?_).symm
      intro row hrow
      rw [List.mem_range] at hrow
      have hle : (row + 1) * S ≤ H := by
        have h1 : (row + 1) * S ≤ (H / S) * S := Nat.mul_le_mul_right S (by omega)
        have h2 : (H / S) * S ≤ H := Nat.div_mul_le_self H S
        omega
      exact map_gridCell_row W H S row ((row + 1) * S) hS (min_eq_left hle)
    · have hge : H ≤ (H / S + 1) * S := by
        have h1 := Nat.div_add_mod H S
        have h2 : H % S < S := Nat.mod_lt H hS
        calc H = S * (H / S) + H % S := h1.symm
          _ ≤ S * (H / S) + S := by omega
          _ = (H / S + 1) * S := by ring
      exact (map_gridCell_row W H S (H / S) H hS (min_eq_right hge)).symm
  · rw [if_neg hH, if_neg hH, Nat.add_zero, List.append_nil]
    refine (List.flatMap_congr ?_).symm
    intro row hrow
    rw [List.mem_range] at hrow
    have hmod : H % S = 0 := by omega
    have hdvd : H / S * S = H := Nat.div_mul_cancel (Nat.dvd_of_mod_eq_zero hmod)
    have hle : (row + 1) * S ≤ H := by
      have h1 : (row + 1) * S ≤ (H / S) * S := Nat.mul_le_mul_right S (by omega)
      omega
    exact map_gridCell_row W H S row ((row + 1) * S) hS (min_eq_left hle)

/-- C2: for positive width, height and cell size, the produced sections are
pairwise disjoint, and every pixel of the image lies in exactly one of them. -/
theorem grid_sections_partition (W H S : ℕ) (hW : 0 < W) (hH : 0 < H) (hS : 0 < S) :
    ((calculateGridSections W H S).Pairwise
      (fun s t => ∀ x y : ℕ, containsPixel s x y → ¬ containsPixel t x y)) ∧
    (∀ x y : ℕ, x < W → y < H →
      (calculateGridSections W H S).countP (fun s => decide (containsPixel s x y)) = 1) := by
  rw [calculateGridSections_eq_canonical W H S hS]
  constructor
  · refine (canonicalSections_nodup hS).imp_of_mem ?_
    intro a b ha hb hne x y hax hbx
    obtain ⟨cya, _, cxa, _, rfl⟩ := mem_canonicalSections.mp ha
    obtain ⟨cyb, _, cxb, _, rfl⟩ := mem_canonicalSections.mp hb
    obtain ⟨_, _, h3, h4⟩ := (containsPixel_gridCell hS).mp hax
    obtain ⟨_, _, h3', h4'⟩ := (containsPixel_gridCell hS).mp hbx
    exact hne (by rw [h3, h4, h3', h4'])
  · intro x y hx hy
    have hmem : gridCell W H S (x / S) (y / S) ∈ canonicalSections W H S :=
      mem_canonicalSections.mpr
        ⟨y / S, div_lt_gridRows hS hy, x / S, div_lt_gridCols hS hx, rfl⟩
    have hcongr : (canonicalSections W H S).countP (fun s => decide (containsPixel s x y)) =
        (canonicalSections W H S).countP (fun s => s == gridCell W H S (x / S) (y / S)) := by
      refine List.countP_congr ?_
      intro s hs
      rw [decide_eq_true_iff, beq_iff_eq]
      obtain ⟨cy, hcy, cx, hcx, rfl⟩ := mem_canonicalSections.mp hs
      constructor
      · intro hc
        obtain ⟨_, _, h3, h4⟩ := (containsPixel_gridCell hS).mp hc
        rw [h3, h4]
      · intro he
        obtain ⟨h1, h2⟩ := gridCell_inj hS he
        exact (containsPixel_gridCell hS).mpr ⟨hx, hy, h1, h2⟩
    rw [hcongr, ← List.count_eq_countP]
    exact List.count_eq_one_of_mem (canonicalSections_nodup hS) hmem

/-- C2 witness: a concrete 5 by 3 image at cell size 2. -/
theorem grid_sections_partition_witness :
    (calculateGridSections 5 3 2).countP (fun s => decide (containsPixel s 4 2)) = 1 ∧
    (calculateGridSections 5 3 2).Pairwise
      (fun s t => ∀ x y : ℕ, containsPixel s x y → ¬ containsPixel t x y) :=
  ⟨(grid_sections_partition 5 3 2 (by decide) (by decide) (by decide)).2 4 2
      (by decide) (by decide),
   (grid_sections_partition 5 3 2 (by decide) (by decide) (by decide)).1⟩

/-- C5 counterexample: a 50 by 400 image at cell size 200 has width below the
cell size, yet the partitioner emits two sections, not a single whole-image
section. -/
theorem degenerate_or_two_sections_counterexample :
    50 < 200 ∧ (calculateGridSections 50 400 200).length = 2 := by
  constructor
  · decide
  · decide

/-- C5 amended: only when both dimensions are below the cell size does the
partitioner emit a single section equal to the whole image. -/
theorem degenerate_grid_single_section (W H S : ℕ) (hW : 0 < W) (hH : 0 < H)
    (hWS : W < S) (hHS : H < S) :
    calculateGridSections W H S = [⟨0, 0, W, H⟩] := by
  unfold calculateGridSections
  have h1 : W / S = 0 := Nat.div_eq_of_lt hWS
  have h2 : H / S = 0 := Nat.div_eq_of_lt hHS
  have h3 : W % S = W := Nat.mod_eq_of_lt hWS
  have h4 : H % S = H := Nat.mod_eq_of_lt hHS
  simp [h1, h2, h3, h4, hW, hH]

/-- C5 amended witness: 3 by 2 image at cell size 5. -/
theorem degenerate_grid_single_section_witness :
    (0 < 3 ∧ 0 < 2 ∧ 3 < 5 ∧ 2 < 5) ∧ calculateGridSections 3 2 5 = [⟨0, 0, 3, 2⟩] :=
  ⟨by decide, degenerate_grid_single_section 3 2 5 (by decide) (by decide) (by decide) (by decide)⟩

lemma sum_min_widths (W S n : ℕ) :
    ((List.range n).map (fun cx => min ((cx + 1) * S) W - cx * S)).sum = min (n * S) W := by
  induction n with
  | zero => simp
  | succ n ih =>
    rw [List.range_succ, List.map_append, List.sum_append, ih]
    simp only [List.map_cons, List.map_nil, List.sum_cons, List.sum_nil, add_zero]
    have hab : n * S ≤ (n + 1) * S := Nat.mul_le_mul_right S (by omega)
    rcases le_total ((n + 1) * S) W with h | h
    · rw [min_eq_left h, min_eq_left (le_trans hab h)]
      omega
    · rw [min_eq_right h]
      rcases le_total (n * S) W with h2 | h2
      · rw [min_eq_left h2]
        omega
      · rw [min_eq_right h2]
        omega

lemma min_gridCols_mul (W S : ℕ) (hS : 0 < S) : min (gridCols W S * S) W = W := by
  unfold gridCols
  by_cases h : 0 < W % S
  · rw [if_pos h]
    refine min_eq_right ?_
    have h1 := Nat.div_add_mod W S
    have h2 : W % S < S := Nat.mod_lt W hS
    calc W = S * (W / S) + W % S := h1.symm
      _ ≤ S * (W / S) + S := by omega
      _ = (W / S + 1) * S := by ring
  · rw [if_neg h, Nat.add_zero]
    have hmod : W % S = 0 := by omega
    rw [Nat.div_mul_cancel (Nat.dvd_of_mod_eq_zero hmod)]
    exact min_self W

/-- The produced sections tile the image: their areas sum to the image area. -/
lemma sum_areas_sections (W H S : ℕ) (hS : 0 < S) :
    ((calculateGridSections W H S).map
      (fun s => (s.endX - s.startX) * (s.endY - s.startY))).sum = W * H := by
  rw [calculateGridSections_eq_canonical W H S hS]
  unfold canonicalSections
  rw [List.map_flatMap]
  rw [show (fun cy => List.map (fun s => (s.endX - s.startX) * (s.endY - s.startY))
      (List.map (fun cx => gridCell W H S cx cy) (List.range (gridCols W S)))) =
    (fun cy => List.map (fun cx =>
      (min ((cx + 1) * S) W - cx * S) * (min ((cy + 1) * S) H - cy * S))
      (List.range (gridCols W S))) from funext (fun cy => by rw [List.map_map]; rfl)]
  rw [List.flatMap, List.sum_flatten, List.map_map]
  have hrow : ∀ cy ∈ List.range (gridRows H S),
      (List.sum ∘ fun cy => List.map (fun cx =>
        (min ((cx + 1) * S) W - cx * S) * (min ((cy + 1) * S) H - cy * S))
        (List.range (gridCols W S))) cy =
      (min ((cy + 1) * S) H - cy * S) * W := by
    intro cy _
    show (List.map (fun cx =>
      (min ((cx + 1) * S) W - cx * S) * (min ((cy + 1) * S) H - cy * S))
      (List.range (gridCols W S))).sum = (min ((cy + 1) * S) H - cy * S) * W
    rw [List.sum_map_mul_right, sum_min_widths, min_gridCols_mul W S hS, Nat.mul_comm]
  rw [List.map_congr_left hrow, List.sum_map_mul_right]
  have hrw : gridRows H S = gridCols H S := rfl
  rw [hrw, sum_min_widths H S (gridCols H S), min_gridCols_mul H S hS, Nat.mul_comm]

/-- Row-major coordinates of the pixels of a section, exactly the iteration
order of the nested loops in `countPixelsByColor` (source lines 348-349:
`y` outer from `startY`, `x` inner from `startX`). -/
def sectionPixels (s : GridSection) : List (ℕ × ℕ) :=
  (List.range (s.endY - s.startY)).flatMap (fun dy =>
    (List.range (s.endX - s.startX)).map (fun dx => (s.startX + dx, s.startY + dy)))

lemma length_sectionPixels (s : GridSection) :
    (sectionPixels s).length = (s.endX - s.startX) * (s.endY - s.startY) := by
  unfold sectionPixels
  rw [List.length_flatMap]
  have : (List.map (List.length ∘ fun dy =>
      (List.range (s.endX - s.startX)).map (fun dx => (s.startX + dx, s.startY + dy)))
      (List.range (s.endY - s.startY))) =
      List.replicate (s.endY - s.startY) (s.endX - s.startX) := by
    rw [show (List.length ∘ fun dy =>
        (List.range (s.endX - s.startX)).map (fun dx => (s.startX + dx, s.startY + dy))) =
      Function.const ℕ (s.endX - s.startX) from funext (fun dy => by
        simp [Function.const])]
    rw [List.map_const, List.length_range]
  rw [this, List.sum_replicate, smul_eq_mul, Nat.mul_comm]

/-- Insert-or-increment on the insertion-ordered association list modelling the
JavaScript `Map` in `countPixelsByColor` (source lines 372-378): an existing
key has its count incremented in place, a new key is appended. -/
def bumpCount : List (String × RGB × ℕ) → String → RGB → List (String × RGB × ℕ)
  | [], key, rgb => [(key, rgb, 1)]
  | e :: rest, key, rgb =>
    if e.1 = key then (e.1, e.2.1, e.2.2 + 1) :: rest else e :: bumpCount rest key rgb

/-- Per-pixel step of `countPixelsByColor` (source lines 348-379): read the
RGBA bytes at `(y * width + x) * 4`, skip the pixel when `alpha < 128`,
otherwise count it under its hex key. -/
def countPixelStep (img : ImageData) (m : List (String × RGB × ℕ)) (p : ℕ × ℕ) :
    List (String × RGB × ℕ) :=
  let idx := (p.2 * img.width + p.1) * 4
  let alpha := readByte img (idx + 3)
  if alpha < 128 then m
  else
    let rgb : RGB := ⟨(readByte img idx : ℤ), (readByte img (idx + 1) : ℤ),
      (readByte img (idx + 2) : ℤ)⟩
    bumpCount m (rgbToHex rgb) rgb

/-- Embeds `countPixelsByColor` (source lines 336-396). -/
def countPixelsByColor (img : ImageData) (startX startY endX endY : ℕ) :
    List (String × RGB × ℕ) :=
  (sectionPixels ⟨startX, startY, endX, endY⟩).foldl (countPixelStep img) []

/-- Count stored for a color key (0 when absent). -/
def countOf (m : List (String × RGB × ℕ)) (key : String) : ℕ :=
  ((m.filter (fun e => e.1 == key)).map (fun e => e.2.2)).sum

lemma countOf_cons (e : String × RGB × ℕ) (m : List (String × RGB × ℕ)) (key : String) :
    countOf (e :: m) key = (if e.1 = key then e.2.2 else 0) + countOf m key := by
  unfold countOf
  by_cases h : e.1 = key
  · simp [List.filter_cons, h]
  · simp [List.filter_cons, h]

lemma countOf_bumpCount (m : List (String × RGB × ℕ)) (k : String) (rgb : RGB) (key : String) :
    countOf (bumpCount m k rgb) key = countOf m key + (if k = key then 1 else 0) := by
  induction m with
  | nil =>
    by_cases h : k = key <;> simp [bumpCount, countOf_cons, countOf, h]
  | cons e rest ih =>
    by_cases h : e.1 = k
    · rw [show bumpCount (e :: rest) k rgb = (e.1, e.2.1, e.2.2 + 1) :: rest from by
        simp [bumpCount, h]]
      rw [countOf_cons, countOf_cons]
      dsimp only
      subst h
      by_cases h2 : e.1 = key
      · rw [if_pos h2, if_pos h2, if_pos h2]
        omega
      · rw [if_neg h2, if_neg h2, if_neg h2]
        omega
    · rw [show bumpCount (e :: rest) k rgb = e :: bumpCount rest k rgb from by
        simp [bumpCount, h]]
      rw [countOf_cons, countOf_cons, ih]
      omega

lemma countOf_countPixelStep_le (img : ImageData) (m : List (String × RGB × ℕ))
    (p : ℕ × ℕ) (key : String) :
    countOf (countPixelStep img m p) key ≤ countOf m key + 1 := by
  unfold countPixelStep
  by_cases h : readByte img ((p.2 * img.width + p.1) * 4 + 3) < 128
  · simp only [h, if_pos]
    omega
  · simp only [h, if_neg, Bool.false_eq_true, not_false_iff]
    rw [countOf_bumpCount]
    split <;> omega

lemma countOf_foldl_le (img : ImageData) (key : String) :
    ∀ (ps : List (ℕ × ℕ)) (m : List (String × RGB × ℕ)),
      countOf (ps.foldl (countPixelStep img) m) key ≤ countOf m key + ps.length := by
  intro ps
  induction ps with
  | nil => intro m; simp
  | cons p ps ih =>
    intro m
    rw [List.foldl_cons]
    calc countOf (ps.foldl (countPixelStep img) (countPixelStep img m p)) key
        ≤ countOf (countPixelStep img m p) key + ps.length := ih _
      _ ≤ (countOf m key + 1) + ps.length := by
          have := countOf_countPixelStep_le img m p key
          omega
      _ = countOf m key + (p :: ps).length := by simp; omega

/-- Any single color's count in a section is bounded by the section's area. -/
lemma countOf_countPixelsByColor_le (img : ImageData) (startX startY endX endY : ℕ)
    (key : String) :
    countOf (countPixelsByColor img startX startY endX endY) key ≤
      (endX - startX) * (endY - startY) := by
  unfold countPixelsByColor
  have h := countOf_foldl_le img key (sectionPixels ⟨startX, startY, endX, endY⟩) []
  rw [length_sectionPixels] at h
  simpa [countOf] using h

/-- Insert-or-add on the insertion-ordered association list modelling the
JavaScript `Map` `globalColorWeights` (source lines 151-163): an update adds to
the stored weighted frequency keeping the first-seen RGB, a new key is
appended. -/
def bumpWeight : List (String × RGB × ℚ) → String → RGB → ℚ → List (String × RGB × ℚ)
  | [], key, rgb, d => [(key, rgb, d)]
  | e :: rest, key, rgb, d =>
    if e.1 = key then (e.1, e.2.1, e.2.2 + d) :: rest else e :: bumpWeight rest key rgb d

/-- Accumulated weighted frequency stored for a color key (0 when absent). -/
def weightOf (m : List (String × RGB × ℚ)) (key : String) : ℚ :=
  ((m.filter (fun e => e.1 == key)).map (fun e => e.2.2)).sum

lemma weightOf_cons (e : String × RGB × ℚ) (m : List (String × RGB × ℚ)) (key : String) :
    weightOf (e :: m) key = (if e.1 = key then e.2.2 else 0) + weightOf m key := by
  unfold weightOf
  by_cases h : e.1 = key
  · simp [List.filter_cons, h]
  · simp [List.filter_cons, h]

lemma weightOf_bumpWeight (m : List (String × RGB × ℚ)) (k : String) (rgb : RGB) (d : ℚ)
    (key : String) :
    weightOf (bumpWeight m k rgb d) key = weightOf m key + (if k = key then d else 0) := by
  induction m with
  | nil =>
    by_cases h : k = key <;> simp [bumpWeight, weightOf_cons, weightOf, h]
  | cons e rest ih =>
    by_cases h : e.1 = k
    · rw [show bumpWeight (e :: rest) k rgb d = (e.1, e.2.1, e.2.2 + d) :: rest from by
        simp [bumpWeight, h]]
      rw [weightOf_cons, weightOf_cons]
      dsimp only
      subst h
      by_cases h2 : e.1 = key
      · rw [if_pos h2, if_pos h2, if_pos h2]
        ring
      · rw [if_neg h2, if_neg h2, if_neg h2]
        ring
    · rw [show bumpWeight (e :: rest) k rgb d = e :: bumpWeight rest k rgb d from by
        simp [bumpWeight, h]]
      rw [weightOf_cons, weightOf_cons, ih]
      ring

/-- Generic shape of the per-section accumulation loop of the Global Weight
Aggregator (source lines 151-163). -/
lemma weightOf_weight_foldl (key : String) (f : String × RGB × ℕ → ℚ) :
    ∀ (l : List (String × RGB × ℕ)) (m : List (String × RGB × ℚ)),
      weightOf (l.foldl (fun m' e => bumpWeight m' e.1 e.2.1 (f e)) m) key =
        weightOf m key + ((l.filter (fun e => e.1 == key)).map f).sum := by
  intro l
  induction l with
  | nil => intro m; simp
  | cons e l ih =>
    intro m
    rw [List.foldl_cons, ih, weightOf_bumpWeight, List.filter_cons]
    by_cases h : e.1 = key
    · rw [if_pos h, if_pos (by rw [beq_iff_eq]; exact h)]
      simp only [List.map_cons, List.sum_cons]
      ring
    · rw [if_neg h, if_neg (by rw [beq_iff_eq]; exact h)]
      ring

/-- Per-section accumulation of `extractColorsWeightedGrid` (source lines
123-164): `sectionArea = sectionWidth * sectionHeight` (line 128),
`areaWeight = sectionArea / standardArea` (line 136), `totalPixelsInSection =
sectionArea` (line 139, the raw geometric area), `localPercentage = count /
totalPixelsInSection * 100` and `weightedPercentage = localPercentage *
areaWeight` (lines 152-153), accumulated per hex key (lines 155-162). -/
def addSectionWeights (img : ImageData) (standardGridSize : ℕ)
    (m : List (String × RGB × ℚ)) (sec : GridSection) : List (String × RGB × ℚ) :=
  (countPixelsByColor img sec.startX sec.startY sec.endX sec.endY).foldl
    (fun m' e => bumpWeight m' e.1 e.2.1
      (((e.2.2 : ℚ) / (((sec.endX - sec.startX) * (sec.endY - sec.startY) : ℕ) : ℚ) * 100) *
        ((((sec.endX - sec.startX) * (sec.endY - sec.startY) : ℕ) : ℚ) /
          ((standardGridSize * standardGridSize : ℕ) : ℚ)))) m

/-- Embeds `globalColorWeights` at the end of the section loop of
`extractColorsWeightedGrid` (source lines 99-164). -/
def globalWeights (img : ImageData) (standardGridSize : ℕ) : List (String × RGB × ℚ) :=
  (calculateGridSections img.width img.height standardGridSize).foldl
    (addSectionWeights img standardGridSize) []

lemma weightOf_addSectionWeights (img : ImageData) (S : ℕ) (m : List (String × RGB × ℚ))
    (sec : GridSection) (key : String) :
    weightOf (addSectionWeights img S m sec) key =
      weightOf m key +
        (countOf (countPixelsByColor img sec.startX sec.startY sec.endX sec.endY) key : ℚ) *
          100 / ((S * S : ℕ) : ℚ) := by
  unfold addSectionWeights
  rw [weightOf_weight_foldl key (fun e =>
    ((e.2.2 : ℚ) / (((sec.endX - sec.startX) * (sec.endY - sec.startY) : ℕ) : ℚ) * 100) *
      ((((sec.endX - sec.startX) * (sec.endY - sec.startY) : ℕ) : ℚ) / ((S * S : ℕ) : ℚ)))]
  congr 1
  by_cases hA : (sec.endX - sec.startX) * (sec.endY - sec.startY) = 0
  · have hpix : sectionPixels ⟨sec.startX, sec.startY, sec.endX, sec.endY⟩ = [] := by
      rw [← List.length_eq_zero, length_sectionPixels]
      exact hA
    have hhist : countPixelsByColor img sec.startX sec.startY sec.endX sec.endY = [] := by
      unfold countPixelsByColor
      rw [hpix]
      rfl
    rw [hhist]
    simp [countOf]
  · have hAq : ((((sec.endX - sec.startX) * (sec.endY - sec.startY) : ℕ)) : ℚ) ≠ 0 :=
      Nat.cast_ne_zero.mpr hA
    rw [List.map_congr_left (g := fun e =>
        (e.2.2 : ℚ) * (100 / ((S * S : ℕ) : ℚ))) ?_]
    · rw [List.sum_map_mul_right]
      have hcast : ((List.filter (fun e => e.1 == key)
          (countPixelsByColor img sec.startX sec.startY sec.endX sec.endY)).map
            (fun e => ((e.2.2 : ℕ) : ℚ))).sum =
          ((countOf (countPixelsByColor img sec.startX sec.startY sec.endX sec.endY) key : ℕ) : ℚ) := by
        unfold countOf
        rw [Nat.cast_list_sum, List.map_map]
        rfl
      rw [hcast, mul_div_assoc]
    · intro e _
      rcases eq_or_ne (((S * S : ℕ) : ℚ)) 0 with hB | hB
      · rw [hB, div_zero, div_zero, mul_zero]
        simp
      · have h1 : ((sec.endX - sec.startX : ℕ) : ℚ) ≠ 0 := by
          rw [Nat.cast_ne_zero]
          intro h
          exact hA (by rw [h, Nat.zero_mul])
        have h2 : ((sec.endY - sec.startY : ℕ) : ℚ) ≠ 0 := by
          rw [Nat.cast_ne_zero]
          intro h
          exact hA (by rw [h, Nat.mul_zero])
        have h3 : ((S : ℚ)) ≠ 0 := by
          rw [Nat.cast_mul] at hB
          intro h
          exact hB (by rw [h, mul_zero])
        field_simp

lemma weightOf_globalWeights_foldl (img : ImageData) (S : ℕ) (key : String) :
    ∀ (secs : List GridSection) (m : List (String × RGB × ℚ)),
      weightOf (secs.foldl (addSectionWeights img S) m) key =
        weightOf m key +
          ((secs.map (fun sec =>
            (countOf (countPixelsByColor img sec.startX sec.startY sec.endX sec.endY) key
              : ℚ))).sum) * 100 / ((S * S : ℕ) : ℚ) := by
  intro secs
  induction secs with
  | nil =>
    intro m
    simp
  | cons sec secs ih =>
    intro m
    rw [List.foldl_cons, ih, weightOf_addSectionWeights]
    simp only [List.map_cons, List.sum_cons]
    ring

lemma weightOf_globalWeights_eq (img : ImageData) (S : ℕ) (key : String) :
    weightOf (globalWeights img S) key =
      (((calculateGridSections img.width img.height S).map (fun sec =>
        (countOf (countPixelsByColor img sec.startX sec.startY sec.endX sec.endY) key
          : ℚ))).sum) * 100 / ((S * S : ℕ) : ℚ) := by
  unfold globalWeights
  rw [weightOf_globalWeights_foldl]
  simp [weightOf]

/-- C1 amended: the aggregator's local percentage divides by the raw geometric
section area (`totalPixelsInSection = sectionArea`, source line 139), so the
area factors cancel against the area weight and every color's accumulated
weighted frequency equals its total pixel count over all sections times
`100 / S²` — transparent pixels lower the counts but never the denominator. -/
theorem global_weight_raw_area_formula (img : ImageData) (S : ℕ) (key : String) :
    weightOf (globalWeights img S) key =
      (((calculateGridSections img.width img.height S).map (fun sec =>
        (countOf (countPixelsByColor img sec.startX sec.startY sec.endX sec.endY) key
          : ℚ))).sum) * 100 / ((S * S : ℕ) : ℚ) :=
  weightOf_globalWeights_eq img S key

/-- Modelled from the spec: the "effective pixel count" of §4.2 — the section
area minus the transparent pixels skipped by the `alpha < 128` test. The
implementation never computes this quantity; `countPixelsByColor` returns only
the per-color counts and source line 139 uses the raw `sectionArea` instead. -/
def effectivePixelCount (img : ImageData) (sec : GridSection) : ℕ :=
  (sectionPixels sec).countP
    (fun p => decide (128 ≤ readByte img ((p.2 * img.width + p.1) * 4 + 3)))

/-- Modelled from the spec: §4.5's accumulation with §4.2's effective
denominator, `localPct = count / effectivePixelCount × 100`, times the area
weight `sectionArea / (S × S)`. -/
def addSectionWeightsSpec (img : ImageData) (standardGridSize : ℕ)
    (m : List (String × RGB × ℚ)) (sec : GridSection) : List (String × RGB × ℚ) :=
  (countPixelsByColor img sec.startX sec.startY sec.endX sec.endY).foldl
    (fun m' e => bumpWeight m' e.1 e.2.1
      (((e.2.2 : ℚ) / ((effectivePixelCount img sec : ℕ) : ℚ) * 100) *
        ((((sec.endX - sec.startX) * (sec.endY - sec.startY) : ℕ) : ℚ) /
          ((standardGridSize * standardGridSize : ℕ) : ℚ)))) m

/-- Modelled from the spec: the global map §4.5 would build with the effective
denominator. -/
def globalWeightsSpec (img : ImageData) (standardGridSize : ℕ) : List (String × RGB × ℚ) :=
  (calculateGridSections img.width img.height standardGridSize).foldl
    (addSectionWeightsSpec img standardGridSize) []

/-- A 2 by 1 image: one opaque pure-red pixel and one fully transparent pixel. -/
def img21 : ImageData := ⟨2, 1, [255, 0, 0, 255, 0, 0, 0, 0]⟩

/-- C1 counterexample: on `img21` the single section holds one opaque red pixel
out of a raw area of 2, so the code accumulates `(1/2·100)·(2/40000) = 1/400`
for red, while the spec's effective-count denominator (1 opaque pixel) would
give `(1/1·100)·(2/40000) = 1/200`; the two disagree, refuting the claim that
the denominator is the effective count rather than the raw area. -/
theorem local_denominator_counterexample :
    weightOf (globalWeights img21 200) "#ff0000" = 1 / 400 ∧
    weightOf (globalWeightsSpec img21 200) "#ff0000" = 1 / 200 ∧
    (1 / 400 : ℚ) ≠ 1 / 200 := by
  have hsec : calculateGridSections img21.width img21.height 200 = [⟨0, 0, 2, 1⟩] := by decide
  have hcount : countPixelsByColor img21 0 0 2 1 = [("#ff0000", ⟨255, 0, 0⟩, 1)] := by decide
  have heff : effectivePixelCount img21 ⟨0, 0, 2, 1⟩ = 1 := by decide
  refine ⟨?_, ?_, by norm_num⟩
  · rw [globalWeights, hsec, List.foldl_cons, List.foldl_nil]
    unfold addSectionWeights
    dsimp only
    rw [hcount, List.foldl_cons, List.foldl_nil]
    simp only [bumpWeight, weightOf, List.filter, beq_self_eq_true, List.map_cons,
      List.map_nil, List.sum_cons, List.sum_nil]
    norm_num
  · rw [globalWeightsSpec, hsec, List.foldl_cons, List.foldl_nil]
    unfold addSectionWeightsSpec
    dsimp only
    rw [hcount, heff, List.foldl_cons, List.foldl_nil]
    simp only [bumpWeight, weightOf, List.filter, beq_self_eq_true, List.map_cons,
      List.map_nil, List.sum_cons, List.sum_nil]
    norm_num

/-- Embeds `rgbToLab` (source lines 612-646): normalize to [0,1], sRGB gamma
expansion, sRGB-to-XYZ matrix, D65 white-point normalization, CIE LAB
nonlinearity. -/
noncomputable def rgbToLab (rgb : RGB) : LAB :=
  let r0 : ℝ := (rgb.r : ℝ) / 255
  let g0 : ℝ := (rgb.g : ℝ) / 255
  let b0 : ℝ := (rgb.b : ℝ) / 255
  let r1 : ℝ := if r0 > 0.04045 then ((r0 + 0.055) / 1.055) ^ (2.4 : ℝ) else r0 / 12.92
  let g1 : ℝ := if g0 > 0.04045 then ((g0 + 0.055) / 1.055) ^ (2.4 : ℝ) else g0 / 12.92
  let b1 : ℝ := if b0 > 0.04045 then ((b0 + 0.055) / 1.055) ^ (2.4 : ℝ) else b0 / 12.92
  let x : ℝ := (r1 * 0.4124564 + g1 * 0.3575761 + b1 * 0.1804375) / 0.95047
  let y : ℝ := (r1 * 0.2126729 + g1 * 0.7151522 + b1 * 0.0721750) / 1.00000
  let z : ℝ := (r1 * 0.0193339 + g1 * 0.1191920 + b1 * 0.9503041) / 1.08883
  let fx : ℝ := if x > 0.008856 then x ^ ((1 : ℝ) / 3) else 7.787 * x + 16 / 116
  let fy : ℝ := if y > 0.008856 then y ^ ((1 : ℝ) / 3) else 7.787 * y + 16 / 116
  let fz : ℝ := if z > 0.008856 then z ^ ((1 : ℝ) / 3) else 7.787 * z + 16 / 116
  ⟨116 * fy - 16, 500 * (fx - fy), 200 * (fy - fz)⟩

/-- Embeds `labDistanceCIE94` (source lines 652-679): CIE94 Delta-E whose chroma
weights `sc` and `sh` are computed from the first operand's chroma `c1` only. -/
noncomputable def labDistanceCIE94 (lab1 lab2 : LAB) : ℝ :=
  let dl := lab1.l - lab2.l
  let da := lab1.a - lab2.a
  let db := lab1.b - lab2.b
  let c1 := Real.sqrt (lab1.a * lab1.a + lab1.b * lab1.b)
  let c2 := Real.sqrt (lab2.a * lab2.a + lab2.b * lab2.b)
  let dc := c1 - c2
  let dh := Real.sqrt (da * da + db * db - dc * dc)
  let sl : ℝ := 1
  let kc : ℝ := 1
  let kh : ℝ := 1
  let k1 : ℝ := 0.045
  let k2 : ℝ := 0.015
  let sc := 1 + k1 * c1
  let sh := 1 + k2 * c1
  Real.sqrt ((dl / sl) ^ 2 + (dc / (kc * sc)) ^ 2 + (dh / (kh * sh)) ^ 2)

/-- On the achromatic axis (`a = b = 0`) the CIE94 distance is the lightness
difference. -/
lemma labDistanceCIE94_axis (l1 l2 : ℝ) :
    labDistanceCIE94 ⟨l1, 0, 0⟩ ⟨l2, 0, 0⟩ = |l1 - l2| := by
  unfold labDistanceCIE94
  norm_num [Real.sqrt_zero, Real.sqrt_sq_eq_abs]

/-- C9: the CIE94 distance is not symmetric; with `A = (L 0, a 3, b 4)` and
`B = (L 0, a 0, b 0)` the structural weights built from the first operand's
chroma give `distance(A,B) = 200/49` but `distance(B,A) = 5`. -/
theorem cie94_not_symmetric :
    labDistanceCIE94 ⟨0, 3, 4⟩ ⟨0, 0, 0⟩ = 200 / 49 ∧
    labDistanceCIE94 ⟨0, 0, 0⟩ ⟨0, 3, 4⟩ = 5 ∧
    labDistanceCIE94 ⟨0, 3, 4⟩ ⟨0, 0, 0⟩ ≠ labDistanceCIE94 ⟨0, 0, 0⟩ ⟨0, 3, 4⟩ := by
  have h25 : Real.sqrt ((3 : ℝ) * 3 + 4 * 4) = 5 := by
    rw [show (3 : ℝ) * 3 + 4 * 4 = 5 ^ 2 by norm_num]
    exact Real.sqrt_sq (by norm_num)
  have hAB : labDistanceCIE94 ⟨0, 3, 4⟩ ⟨0, 0, 0⟩ = 200 / 49 := by
    unfold labDistanceCIE94
    dsimp only
    rw [h25]
    norm_num [Real.sqrt_zero]
    rw [show (40000 : ℝ) = 200 ^ 2 by norm_num, show (2401 : ℝ) = 49 ^ 2 by norm_num,
      Real.sqrt_sq (by norm_num : (0:ℝ) ≤ 200), Real.sqrt_sq (by norm_num : (0:ℝ) ≤ 49)]
  have hBA : labDistanceCIE94 ⟨0, 0, 0⟩ ⟨0, 3, 4⟩ = 5 := by
    unfold labDistanceCIE94
    dsimp only
    rw [h25]
    norm_num [Real.sqrt_zero]
    rw [show (25 : ℝ) = 5 ^ 2 by norm_num]
    exact Real.sqrt_sq (by norm_num)
  exact ⟨hAB, hBA, by rw [hAB, hBA]; norm_num⟩

/-- First normalization pass (source lines 168-175): sum of the accumulated
weighted frequencies of the colors at or above the 0.1 threshold. -/
def totalWeightedFrequency (gw : List (String × RGB × ℚ)) : ℚ :=
  ((gw.filter (fun e => decide ((1/10 : ℚ) ≤ e.2.2))).map (fun e => e.2.2)).sum

/-- Second normalization pass (source lines 178-191): every color whose
weighted frequency reaches 0.1 becomes a `ColorResult` with
`frequency = weightedFrequency / total * 100` and
`clusterSize = Math.round(weightedFrequency * 10)`. -/
noncomputable def rawResults (img : ImageData) (standardGridSize : ℕ) : List ColorResult :=
  ((globalWeights img standardGridSize).filter (fun e => decide ((1/10 : ℚ) ≤ e.2.2))).map
    (fun e =>
      { color := e.1, rgb := e.2.1, lab := rgbToLab e.2.1,
        frequency := e.2.2 / totalWeightedFrequency (globalWeights img standardGridSize) * 100,
        clusterSize := (jsRound (e.2.2 * 10) : ℚ) })

/-- Embeds `results.sort((a, b) => b.frequency - a.frequency)` (source line 194 and
line 83): stable descending sort by frequency. -/
noncomputable def sortByFrequency (l : List ColorResult) : List ColorResult :=
  l.mergeSort (fun a b => decide (b.frequency ≤ a.frequency))

/-- Threshold choice of the Conservative Merger (source lines 473-474): a red
base (`R>180, G<100, B<100`) merges at 1.5 Delta-E, any other base at 3. -/
noncomputable def mergeThreshold (base : ColorResult) : ℝ :=
  if 180 < base.rgb.r ∧ base.rgb.g < 100 ∧ base.rgb.b < 100 then 1.5 else 3

/-- The merged entry a base group produces (source lines 466-506): frequencies
add, the representative RGB is the frequency-weighted average rounded
per channel, and hex and LAB are recomputed from it. -/
noncomputable def mergeEntry (base : ColorResult) (absorbed : List ColorResult) : ColorResult :=
  let totalFrequency := base.frequency + (absorbed.map (fun c => c.frequency)).sum
  let totalR := (base.rgb.r : ℚ) * base.frequency +
    (absorbed.map (fun c => (c.rgb.r : ℚ) * c.frequency)).sum
  let totalG := (base.rgb.g : ℚ) * base.frequency +
    (absorbed.map (fun c => (c.rgb.g : ℚ) * c.frequency)).sum
  let totalB := (base.rgb.b : ℚ) * base.frequency +
    (absorbed.map (fun c => (c.rgb.b : ℚ) * c.frequency)).sum
  let avgRgb : RGB := ⟨jsRound (totalR / totalFrequency), jsRound (totalG / totalFrequency),
    jsRound (totalB / totalFrequency)⟩
  { color := rgbToHex avgRgb, rgb := avgRgb, lab := rgbToLab avgRgb,
    frequency := totalFrequency, clusterSize := totalFrequency }

/-- The double scan of `mergeSimilarColorsConservative` (source lines 463-509)
as a recursion: the next not-yet-merged color is the base; every later
not-yet-merged color whose CIE94 distance from the base is below the base's
threshold is absorbed into its group; group formation stops once `maxColors`
groups exist (loop guard `merged.length < maxColors`), dropping the remaining
colors. -/
noncomputable def mergeGroups : ℕ → List ColorResult → List ColorResult
  | 0, _ => []
  | _ + 1, [] => []
  | cap + 1, base :: rest =>
    mergeEntry base (rest.filter (fun c =>
        decide (labDistanceCIE94 base.lab c.lab < mergeThreshold base))) ::
      mergeGroups cap (rest.filter (fun c =>
        !decide (labDistanceCIE94 base.lab c.lab < mergeThreshold base)))

/-- Embeds `mergeSimilarColorsConservative` (source lines 457-512): a list no longer
than the cap is returned unchanged (line 458). -/
noncomputable def mergeSimilarColorsConservative (colors : List ColorResult) (maxColors : ℕ) :
    List ColorResult :=
  if colors.length ≤ maxColors then colors else mergeGroups maxColors colors

/-- Embeds `selectDiverseColors` (source lines 518-564): drop entries below the 0.5%
minimum frequency threshold; if at most `maxColors` remain return them all,
otherwise the first `maxColors` (`slice(0, maxColors)`, line 553). The
category breakdown computed in the source is only logged, never used. -/
noncomputable def selectDiverseColors (colors : List ColorResult) (maxColors : ℕ) :
    List ColorResult :=
  if (colors.filter (fun c => decide ((1/2 : ℚ) ≤ c.frequency))).length ≤ maxColors then
    colors.filter (fun c => decide ((1/2 : ℚ) ≤ c.frequency))
  else
    (colors.filter (fun c => decide ((1/2 : ℚ) ≤ c.frequency))).take maxColors

/-- Embeds `extractColorsWeightedGrid` (source lines 93-273): aggregate and normalize,
sort descending by frequency, merge conservatively with cap `maxColors * 3`
(line 215), then select. -/
noncomputable def extractColorsWeightedGrid (img : ImageData) (maxColors standardGridSize : ℕ) :
    List ColorResult :=
  selectDiverseColors
    (mergeSimilarColorsConservative (sortByFrequency (rawResults img standardGridSize))
      (maxColors * 3))
    maxColors

/-- Embeds `extractColors` (source lines 59-88) once the image is decoded: run the
weighted-grid extraction and sort the returned selection by descending
frequency (line 83). The canvas and image-loading plumbing is environment I/O
outside the pixel pipeline; the source performs no validation of `maxColors`
or the grid size. -/
noncomputable def extractColors (img : ImageData) (maxColors standardGridSize : ℕ) :
    List ColorResult :=
  sortByFrequency (extractColorsWeightedGrid img maxColors standardGridSize)

lemma selectDiverseColors_eq_take_filter (colors : List ColorResult) (maxColors : ℕ) :
    selectDiverseColors colors maxColors =
      (colors.filter (fun c => decide ((1/2 : ℚ) ≤ c.frequency))).take maxColors := by
  unfold selectDiverseColors
  by_cases h : (colors.filter (fun c => decide ((1/2 : ℚ) ≤ c.frequency))).length ≤ maxColors
  · rw [if_pos h, List.take_of_length_le h]
  · rw [if_neg h]

/-- C8: the Significance Selector returns exactly the significant entries
(frequency at least 0.5) in their original order, truncated to the first
`maxColors` of them when more remain — never padded, never reordered, and with
no category-diversity substitution. -/
theorem selector_returns_significant_colors_in_order (colors : List ColorResult) (maxColors : ℕ) :
    selectDiverseColors colors maxColors =
      (colors.filter (fun c => decide ((1/2 : ℚ) ≤ c.frequency))).take maxColors :=
  selectDiverseColors_eq_take_filter colors maxColors

lemma selectDiverseColors_zero (colors : List ColorResult) :
    selectDiverseColors colors 0 = [] := by
  rw [selectDiverseColors_eq_take_filter, List.take_zero]

/-- C6 amended: `extractColors` performs no validation of `maxColors` or
`gridCellSize`; no `InvalidParameters` failure exists in the source, and a call
with `maxColors = 0 < 1` returns an ordinary (empty) result list computed by
the normal pipeline. -/
theorem no_invalid_parameters_validation (img : ImageData) (S : ℕ) :
    extractColors img 0 S = [] := by
  unfold extractColors extractColorsWeightedGrid
  rw [selectDiverseColors_zero, sortByFrequency, List.mergeSort_nil]

/-- C6 counterexample: with `maxColors = 0` on a concrete opaque 1 by 1 image
the engine returns the empty result list — a normal return, not an
`InvalidParameters` error. -/
theorem no_invalid_parameters_counterexample :
    extractColors ⟨1, 1, [255, 0, 0, 255]⟩ 0 200 = [] := by
  unfold extractColors extractColorsWeightedGrid
  rw [selectDiverseColors_zero, sortByFrequency, List.mergeSort_nil]

lemma length_mergeGroups_le : ∀ (cap : ℕ) (colors : List ColorResult),
    (mergeGroups cap colors).length ≤ cap := by
  intro cap
  induction cap with
  | zero =>
    intro colors
    simp [mergeGroups]
  | succ cap ih =>
    intro colors
    cases colors with
    | nil => simp [mergeGroups]
    | cons base rest =>
      rw [mergeGroups]
      simp only [List.length_cons]
      have := ih (rest.filter (fun c =>
        !decide (labDistanceCIE94 base.lab c.lab < mergeThreshold base)))
      omega

/-- C7: the Conservative Merger is idempotent — its output is never longer
than the cap, and a list within the cap is returned unchanged, so a second
application with the same cap performs no further merges. -/
theorem merger_idempotent (colors : List ColorResult) (maxColors : ℕ) :
    mergeSimilarColorsConservative (mergeSimilarColorsConservative colors maxColors) maxColors =
      mergeSimilarColorsConservative colors maxColors := by
  unfold mergeSimilarColorsConservative
  by_cases h : colors.length ≤ maxColors
  · rw [if_pos h, if_pos h]
  · rw [if_neg h, if_pos (length_mergeGroups_le maxColors colors)]

lemma filter_not_filter_map_sum (p : ColorResult → Bool) (f : ColorResult → ℚ)
    (l : List ColorResult) :
    ((l.filter p).map f).sum + ((l.filter (fun c => !p c)).map f).sum = (l.map f).sum := by
  induction l with
  | nil => simp
  | cons c l ih =>
    cases hp : p c with
    | true =>
      simp only [List.filter_cons, hp, Bool.not_true, if_pos, List.map_cons, List.sum_cons,
        Bool.false_eq_true, if_neg, not_false_iff]
      rw [← ih]
      ring
    | false =>
      simp only [List.filter_cons, hp, Bool.not_false, Bool.false_eq_true, if_neg,
        not_false_iff, if_pos, List.map_cons, List.sum_cons]
      rw [← ih]
      ring

lemma map_sum_nonneg (f : ColorResult → ℚ) (l : List ColorResult)
    (h : ∀ c ∈ l, 0 ≤ f c) : 0 ≤ (l.map f).sum := by
  refine List.sum_nonneg ?_
  intro x hx
  obtain ⟨c, hc, rfl⟩ := List.mem_map.mp hx
  exact h c hc

lemma mergeEntry_frequency (base : ColorResult) (absorbed : List ColorResult) :
    (mergeEntry base absorbed).frequency =
      base.frequency + (absorbed.map (fun c => c.frequency)).sum := rfl

lemma mergeGroups_freq_sum_le : ∀ (cap : ℕ) (colors : List ColorResult),
    (∀ c ∈ colors, 0 ≤ c.frequency) →
    ((mergeGroups cap colors).map (fun c => c.frequency)).sum ≤
      (colors.map (fun c => c.frequency)).sum := by
  intro cap
  induction cap with
  | zero =>
    intro colors h
    simp only [mergeGroups, List.map_nil, List.sum_nil]
    exact map_sum_nonneg _ colors h
  | succ cap ih =>
    intro colors h
    cases colors with
    | nil => simp [mergeGroups]
    | cons base rest =>
      rw [mergeGroups]
      simp only [List.map_cons, List.sum_cons, mergeEntry_frequency]
      have hpart := filter_not_filter_map_sum
        (fun c => decide (labDistanceCIE94 base.lab c.lab < mergeThreshold base))
        (fun c => c.frequency) rest
      have hkept : ∀ c ∈ rest.filter (fun c =>
          !decide (labDistanceCIE94 base.lab c.lab < mergeThreshold base)), 0 ≤ c.frequency :=
        fun c hc => h c (List.mem_cons_of_mem _ (List.mem_of_mem_filter hc))
      have hrec := ih (rest.filter (fun c =>
        !decide (labDistanceCIE94 base.lab c.lab < mergeThreshold base))) hkept
      linarith

lemma mergeGroups_freq_nonneg : ∀ (cap : ℕ) (colors : List ColorResult),
    (∀ c ∈ colors, 0 ≤ c.frequency) →
    ∀ c ∈ mergeGroups cap colors, 0 ≤ c.frequency := by
  intro cap
  induction cap with
  | zero =>
    intro colors _ c hc
    simp [mergeGroups] at hc
  | succ cap ih =>
    intro colors h c hc
    cases colors with
    | nil => simp [mergeGroups] at hc
    | cons base rest =>
      rw [mergeGroups] at hc
      rcases List.mem_cons.mp hc with hc | hc
      · subst hc
        rw [mergeEntry_frequency]
        have h1 : 0 ≤ base.frequency := h base (List.mem_cons_self _ _)
        have h2 : 0 ≤ ((rest.filter (fun c =>
            decide (labDistanceCIE94 base.lab c.lab < mergeThreshold base))).map
              (fun c => c.frequency)).sum :=
          map_sum_nonneg _ _ (fun c hc => h c (List.mem_cons_of_mem _ (List.mem_of_mem_filter hc)))
        linarith
      · exact ih _ (fun c hc => h c (List.mem_cons_of_mem _ (List.mem_of_mem_filter hc))) c hc

lemma merge_freq_sum_le (colors : List ColorResult) (maxColors : ℕ)
    (h : ∀ c ∈ colors, 0 ≤ c.frequency) :
    ((mergeSimilarColorsConservative colors maxColors).map (fun c => c.frequency)).sum ≤
      (colors.map (fun c => c.frequency)).sum := by
  unfold mergeSimilarColorsConservative
  by_cases hlen : colors.length ≤ maxColors
  · rw [if_pos hlen]
  · rw [if_neg hlen]
    exact mergeGroups_freq_sum_le maxColors colors h

lemma merge_freq_nonneg (colors : List ColorResult) (maxColors : ℕ)
    (h : ∀ c ∈ colors, 0 ≤ c.frequency) :
    ∀ c ∈ mergeSimilarColorsConservative colors maxColors, 0 ≤ c.frequency := by
  unfold mergeSimilarColorsConservative
  by_cases hlen : colors.length ≤ maxColors
  · rw [if_pos hlen]
    exact h
  · rw [if_neg hlen]
    exact mergeGroups_freq_nonneg maxColors colors h

lemma sortByFrequency_perm (l : List ColorResult) : (sortByFrequency l).Perm l :=
  List.mergeSort_perm l _

lemma sortByFrequency_freq_sum (l : List ColorResult) (f : ColorResult → ℚ) :
    ((sortByFrequency l).map f).sum = (l.map f).sum :=
  ((sortByFrequency_perm l).map f).sum_eq

lemma take_map_sum_le (l : List ColorResult) (n : ℕ) (f : ColorResult → ℚ)
    (h : ∀ c ∈ l, 0 ≤ f c) :
    ((l.take n).map f).sum ≤ (l.map f).sum := by
  have hsplit := List.sum_take_add_sum_drop (l.map f) n
  rw [← List.map_take, ← List.map_drop] at hsplit
  have hdrop : 0 ≤ ((l.drop n).map f).sum :=
    map_sum_nonneg f _ (fun c hc => h c (List.drop_subset n l hc))
  linarith

lemma filter_map_sum_le (p : ColorResult → Bool) (f : ColorResult → ℚ) (l : List ColorResult)
    (h : ∀ c ∈ l, 0 ≤ f c) :
    ((l.filter p).map f).sum ≤ (l.map f).sum := by
  have hpart := filter_not_filter_map_sum p f l
  have hother : 0 ≤ ((l.filter (fun c => !p c)).map f).sum :=
    map_sum_nonneg f _ (fun c hc => h c (List.mem_of_mem_filter hc))
  linarith

lemma totalWeighted_ge (img : ImageData) (S : ℕ)
    (h : ∃ e ∈ globalWeights img S, (1/10 : ℚ) ≤ e.2.2) :
    (1/10 : ℚ) ≤ totalWeightedFrequency (globalWeights img S) := by
  obtain ⟨e, he, h1⟩ := h
  have hmem : e ∈ (globalWeights img S).filter (fun e => decide ((1/10 : ℚ) ≤ e.2.2)) :=
    List.mem_filter.mpr ⟨he, by rw [decide_eq_true_iff]; exact h1⟩
  have hnn : ∀ x ∈ ((globalWeights img S).filter
      (fun e => decide ((1/10 : ℚ) ≤ e.2.2))).map (fun e => e.2.2), 0 ≤ x := by
    intro x hx
    obtain ⟨e', he', rfl⟩ := List.mem_map.mp hx
    have := (List.mem_filter.mp he').2
    rw [decide_eq_true_iff] at this
    linarith
  calc (1/10 : ℚ) ≤ e.2.2 := h1
    _ ≤ totalWeightedFrequency (globalWeights img S) :=
        List.single_le_sum hnn _ (List.mem_map_of_mem _ hmem)

lemma rawResults_freq_sum (img : ImageData) (S : ℕ)
    (h : ∃ e ∈ globalWeights img S, (1/10 : ℚ) ≤ e.2.2) :
    ((rawResults img S).map (fun c => c.frequency)).sum = 100 := by
  have hT := totalWeighted_ge img S h
  have hT0 : totalWeightedFrequency (globalWeights img S) ≠ 0 := by linarith
  unfold rawResults
  rw [List.map_map]
  rw [List.map_congr_left (g := fun e =>
    e.2.2 * (100 / totalWeightedFrequency (globalWeights img S))) (fun e _ => by
      simp only [Function.comp]
      ring)]
  rw [List.sum_map_mul_right]
  rw [show ((List.filter (fun e => decide ((1/10 : ℚ) ≤ e.2.2)) (globalWeights img S)).map
    (fun e => e.2.2)).sum = totalWeightedFrequency (globalWeights img S) from rfl]
  field_simp

lemma rawResults_freq_nonneg (img : ImageData) (S : ℕ)
    (h : ∃ e ∈ globalWeights img S, (1/10 : ℚ) ≤ e.2.2) :
    ∀ c ∈ rawResults img S, 0 ≤ c.frequency := by
  have hT := totalWeighted_ge img S h
  intro c hc
  unfold rawResults at hc
  obtain ⟨e, he, rfl⟩ := List.mem_map.mp hc
  have h1 := (List.mem_filter.mp he).2
  rw [decide_eq_true_iff] at h1
  have : (0 : ℚ) ≤ e.2.2 / totalWeightedFrequency (globalWeights img S) :=
    div_nonneg (by linarith) (by linarith)
  simpa using by positivity

/-- C4: whenever some color reaches the 0.1 pre-filter, the normalized
frequencies emitted by the aggregator (pre-merge, pre-filter) sum to exactly
100, and the frequencies of the final selection sum to at most 100. -/
theorem normalization_sums (img : ImageData) (maxColors S : ℕ)
    (h : ∃ e ∈ globalWeights img S, (1/10 : ℚ) ≤ e.2.2) :
    ((rawResults img S).map (fun c => c.frequency)).sum = 100 ∧
    ((extractColorsWeightedGrid img maxColors S).map (fun c => c.frequency)).sum ≤ 100 := by
  have h100 := rawResults_freq_sum img S h
  have hnn := rawResults_freq_nonneg img S h
  refine ⟨h100, ?_⟩
  unfold extractColorsWeightedGrid
  have hnn_sorted : ∀ c ∈ sortByFrequency (rawResults img S), 0 ≤ c.frequency := by
    intro c hc
    exact hnn c ((sortByFrequency_perm _).mem_iff.mp hc)
  have hsort_sum : ((sortByFrequency (rawResults img S)).map (fun c => c.frequency)).sum = 100 := by
    rw [sortByFrequency_freq_sum]
    exact h100
  have hmerge_sum := merge_freq_sum_le (sortByFrequency (rawResults img S)) (maxColors * 3)
    hnn_sorted
  have hmerge_nn := merge_freq_nonneg (sortByFrequency (rawResults img S)) (maxColors * 3)
    hnn_sorted
  rw [selectDiverseColors_eq_take_filter]
  have h1 := take_map_sum_le ((mergeSimilarColorsConservative
      (sortByFrequency (rawResults img S)) (maxColors * 3)).filter
        (fun c => decide ((1/2 : ℚ) ≤ c.frequency))) maxColors (fun c => c.frequency)
    (fun c hc => hmerge_nn c (List.mem_of_mem_filter hc))
  have h2 := filter_map_sum_le (fun c => decide ((1/2 : ℚ) ≤ c.frequency)) (fun c => c.frequency)
    (mergeSimilarColorsConservative (sortByFrequency (rawResults img S)) (maxColors * 3))
    hmerge_nn
  linarith

/-- A fully opaque 2 by 2 pure-red image. -/
def img22 : ImageData :=
  ⟨2, 2, [255, 0, 0, 255, 255, 0, 0, 255, 255, 0, 0, 255, 255, 0, 0, 255]⟩

lemma globalWeights_img22 : globalWeights img22 2 = [("#ff0000", ⟨255, 0, 0⟩, 100)] := by
  have hsec : calculateGridSections 2 2 2 = [⟨0, 0, 2, 2⟩] := by decide
  have hcount : countPixelsByColor img22 0 0 2 2 = [("#ff0000", ⟨255, 0, 0⟩, 4)] := by decide
  rw [show globalWeights img22 2 =
    (calculateGridSections 2 2 2).foldl (addSectionWeights img22 2) [] from rfl]
  rw [hsec, List.foldl_cons, List.foldl_nil]
  unfold addSectionWeights
  dsimp only
  rw [hcount, List.foldl_cons, List.foldl_nil]
  simp only [bumpWeight]
  norm_num

/-- C4 witness: on the 2 by 2 red image at cell size 2 the pre-filter
hypothesis holds, the raw frequency sum is exactly 100 and the final selection
sums to at most 100. -/
theorem normalization_sums_witness :
    (∃ e ∈ globalWeights img22 2, (1/10 : ℚ) ≤ e.2.2) ∧
    ((rawResults img22 2).map (fun c => c.frequency)).sum = 100 ∧
    ((extractColorsWeightedGrid img22 5 2).map (fun c => c.frequency)).sum ≤ 100 := by
  have hex : ∃ e ∈ globalWeights img22 2, (1/10 : ℚ) ≤ e.2.2 := by
    rw [globalWeights_img22]
    exact ⟨("#ff0000", ⟨255, 0, 0⟩, 100), List.mem_singleton.mpr rfl, by norm_num⟩
  exact ⟨hex, normalization_sums img22 5 2 hex⟩

/-- Key list of the accumulated map (`Map` keys in insertion order). -/
def keysOf (m : List (String × RGB × ℚ)) : List String := m.map (fun e => e.1)

lemma keysOf_cons (e : String × RGB × ℚ) (m : List (String × RGB × ℚ)) :
    keysOf (e :: m) = e.1 :: keysOf m := rfl

lemma keysOf_bumpWeight (m : List (String × RGB × ℚ)) (k : String) (rgb : RGB) (d : ℚ) :
    keysOf (bumpWeight m k rgb d) = if k ∈ keysOf m then keysOf m else keysOf m ++ [k] := by
  induction m with
  | nil => simp [bumpWeight, keysOf]
  | cons e rest ih =>
    by_cases h : e.1 = k
    · rw [show bumpWeight (e :: rest) k rgb d = (e.1, e.2.1, e.2.2 + d) :: rest from by
        simp [bumpWeight, h]]
      have hk : k ∈ keysOf (e :: rest) := by
        rw [keysOf_cons, ← h]
        exact List.mem_cons_self _ _
      rw [if_pos hk]
      rfl
    · rw [show bumpWeight (e :: rest) k rgb d = e :: bumpWeight rest k rgb d from by
        simp [bumpWeight, h]]
      rw [keysOf_cons, ih]
      by_cases hk : k ∈ keysOf rest
      · rw [if_pos hk, if_pos (show k ∈ keysOf (e :: rest) from by
          rw [keysOf_cons]
          exact List.mem_cons_of_mem _ hk), keysOf_cons]
      · rw [if_neg hk, if_neg (show k ∉ keysOf (e :: rest) from by
          rw [keysOf_cons]
          intro hmem
          rcases List.mem_cons.mp hmem with h1 | h1
          · exact h h1.symm
          · exact hk h1), keysOf_cons, List.cons_append]

lemma nodup_keysOf_bumpWeight {m : List (String × RGB × ℚ)} (k : String) (rgb : RGB) (d : ℚ)
    (h : (keysOf m).Nodup) : (keysOf (bumpWeight m k rgb d)).Nodup := by
  rw [keysOf_bumpWeight]
  by_cases hk : k ∈ keysOf m
  · rw [if_pos hk]
    exact h
  · rw [if_neg hk]
    rw [List.nodup_append]
    exact ⟨h, List.nodup_singleton k, by
      intro a ha hmem
      rw [List.mem_singleton] at hmem
      exact hk (hmem ▸ ha)⟩

lemma nodup_keysOf_weight_foldl (f : String × RGB × ℕ → ℚ) :
    ∀ (l : List (String × RGB × ℕ)) (m : List (String × RGB × ℚ)),
      (keysOf m).Nodup →
      (keysOf (l.foldl (fun m' e => bumpWeight m' e.1 e.2.1 (f e)) m)).Nodup := by
  intro l
  induction l with
  | nil => intro m h; exact h
  | cons e l ih =>
    intro m h
    rw [List.foldl_cons]
    exact ih _ (nodup_keysOf_bumpWeight _ _ _ h)

lemma nodup_keysOf_addSectionWeights (img : ImageData) (S : ℕ) (m : List (String × RGB × ℚ))
    (sec : GridSection) (h : (keysOf m).Nodup) :
    (keysOf (addSectionWeights img S m sec)).Nodup := by
  unfold addSectionWeights
  exact nodup_keysOf_weight_foldl _ _ m h

lemma nodup_keysOf_globalWeights (img : ImageData) (S : ℕ) :
    (keysOf (globalWeights img S)).Nodup := by
  unfold globalWeights
  have h : ∀ (secs : List GridSection) (m : List (String × RGB × ℚ)), (keysOf m).Nodup →
      (keysOf (secs.foldl (addSectionWeights img S) m)).Nodup := by
    intro secs
    induction secs with
    | nil => intro m h; exact h
    | cons sec secs ih =>
      intro m h
      rw [List.foldl_cons]
      exact ih _ (nodup_keysOf_addSectionWeights img S m sec h)
  exact h _ [] (by simp [keysOf])

lemma weightOf_eq_zero_of_not_mem (m : List (String × RGB × ℚ)) (key : String)
    (h : key ∉ keysOf m) : weightOf m key = 0 := by
  induction m with
  | nil => simp [weightOf]
  | cons e rest ih =>
    rw [keysOf_cons, List.mem_cons] at h
    push_neg at h
    rw [weightOf_cons, if_neg (fun he => h.1 he.symm), ih h.2, add_zero]

lemma weightOf_of_mem (m : List (String × RGB × ℚ)) (e : String × RGB × ℚ)
    (hnd : (keysOf m).Nodup) (he : e ∈ m) : weightOf m e.1 = e.2.2 := by
  induction m with
  | nil => exact absurd he (List.not_mem_nil e)
  | cons f rest ih =>
    rw [keysOf_cons, List.nodup_cons] at hnd
    rcases List.mem_cons.mp he with h1 | h1
    · subst h1
      rw [weightOf_cons, if_pos rfl, weightOf_eq_zero_of_not_mem rest e.1 hnd.1, add_zero]
    · have hne : f.1 ≠ e.1 := by
        intro hcontra
        exact hnd.1 (hcontra ▸ List.mem_map_of_mem (fun x => x.1) h1)
      rw [weightOf_cons, if_neg hne, ih hnd.2 h1, zero_add]

lemma weightOf_globalWeights_le (img : ImageData) (S : ℕ) (key : String) (hS : 0 < S) :
    weightOf (globalWeights img S) key ≤
      ((img.width * img.height : ℕ) : ℚ) * 100 / ((S * S : ℕ) : ℚ) := by
  rw [weightOf_globalWeights_eq]
  have hsum : ((calculateGridSections img.width img.height S).map (fun sec =>
      (countOf (countPixelsByColor img sec.startX sec.startY sec.endX sec.endY) key : ℚ))).sum ≤
      ((img.width * img.height : ℕ) : ℚ) := by
    calc ((calculateGridSections img.width img.height S).map (fun sec =>
        (countOf (countPixelsByColor img sec.startX sec.startY sec.endX sec.endY) key
          : ℚ))).sum
        ≤ ((calculateGridSections img.width img.height S).map (fun sec =>
          (((sec.endX - sec.startX) * (sec.endY - sec.startY) : ℕ) : ℚ))).sum := by
          refine List.sum_le_sum ?_
          intro sec _
          exact_mod_cast
            countOf_countPixelsByColor_le img sec.startX sec.startY sec.endX sec.endY key
      _ = ((img.width * img.height : ℕ) : ℚ) := by
          have hmm : (List.map (fun sec : GridSection =>
              (((sec.endX - sec.startX) * (sec.endY - sec.startY) : ℕ) : ℚ))
              (calculateGridSections img.width img.height S)) =
            List.map (Nat.cast : ℕ → ℚ)
              (List.map (fun sec : GridSection =>
                (sec.endX - sec.startX) * (sec.endY - sec.startY))
                (calculateGridSections img.width img.height S)) := by
            rw [List.map_map]
            rfl
          rw [hmm, ← Nat.cast_list_sum, sum_areas_sections img.width img.height S hS]
  have hS2 : (0 : ℚ) < ((S * S : ℕ) : ℚ) := by exact_mod_cast Nat.mul_pos hS hS
  exact (div_le_div_right hS2).mpr
    ((mul_le_mul_right (by norm_num : (0 : ℚ) < 100)).mpr hsum)

/-- C10: on any fully opaque image whose pixel area is below `S² / 1000`,
every color's accumulated weighted frequency stays below the 0.1 pre-filter
cutoff, so the extraction returns the empty list despite the image containing
only opaque pixels. -/
theorem tiny_image_empty_result (img : ImageData) (maxColors S : ℕ) (hS : 0 < S)
    (halpha : ∀ x, x < img.width → ∀ y, y < img.height →
      128 ≤ readByte img ((y * img.width + x) * 4 + 3))
    (harea : ((img.width * img.height : ℕ) : ℚ) < ((S * S : ℕ) : ℚ) / 1000) :
    extractColorsWeightedGrid img maxColors S = [] := by
  have hall : ∀ e ∈ globalWeights img S, e.2.2 < 1/10 := by
    intro e he
    have hval := weightOf_of_mem _ e (nodup_keysOf_globalWeights img S) he
    have hb := weightOf_globalWeights_le img S e.1 hS
    rw [hval] at hb
    have hS2 : (0 : ℚ) < ((S * S : ℕ) : ℚ) := by exact_mod_cast Nat.mul_pos hS hS
    have hlt : ((img.width * img.height : ℕ) : ℚ) * 100 / ((S * S : ℕ) : ℚ) < 1/10 := by
      rw [div_lt_iff hS2]
      linarith
    linarith
  have hfil : (globalWeights img S).filter (fun e => decide ((1/10 : ℚ) ≤ e.2.2)) = [] := by
    rw [List.filter_eq_nil_iff]
    intro e he
    rw [decide_eq_true_iff]
    have := hall e he
    linarith
  have hraw : rawResults img S = [] := by
    unfold rawResults
    rw [hfil, List.map_nil]
  unfold extractColorsWeightedGrid
  rw [hraw, sortByFrequency, List.mergeSort_nil]
  rw [show mergeSimilarColorsConservative [] (maxColors * 3) = [] from by
    unfold mergeSimilarColorsConservative
    rw [if_pos (by simp)]]
  rw [selectDiverseColors_eq_take_filter]
  simp

/-- A fully opaque 1 by 1 pure-red image. -/
def img11 : ImageData := ⟨1, 1, [255, 0, 0, 255]⟩

/-- C10 witness: the opaque 1 by 1 red image (area 1 < 200²/1000 = 40) yields
an empty extraction at the default cell size 200. -/
theorem tiny_image_empty_result_witness :
    extractColorsWeightedGrid img11 5 200 = [] :=
  tiny_image_empty_result img11 5 200 (by decide) (by decide) (by norm_num [img11])

lemma jsRound_eval (q : ℚ) (n : ℤ) (h1 : (n : ℚ) ≤ q + 1/2) (h2 : q + 1/2 < n + 1) :
    jsRound q = n := by
  unfold jsRound
  exact Int.floor_eq_iff.mpr ⟨h1, h2⟩

/-- Gray test color: RGB(119,119,119); its LAB is placed on the achromatic axis
at L = 50 so CIE94 distances are exact lightness differences. -/
noncomputable def grayA : ColorResult := ⟨"#777777", ⟨119, 119, 119⟩, ⟨50, 0, 0⟩, 20, 20⟩

/-- Second gray test color, 2 Delta-E from `grayA`. -/
noncomputable def grayB : ColorResult := ⟨"#727272", ⟨114, 114, 114⟩, ⟨48, 0, 0⟩, 10, 10⟩

/-- Red-classified test color (`R>180, G<100, B<100`), LAB on the achromatic
axis at L = 90. -/
noncomputable def redA : ColorResult := ⟨"#c83232", ⟨200, 50, 50⟩, ⟨90, 0, 0⟩, 40, 40⟩

/-- Second red-classified test color, 3 Delta-E from `redA`. -/
noncomputable def redB : ColorResult := ⟨"#be3c3c", ⟨190, 60, 60⟩, ⟨87, 0, 0⟩, 30, 30⟩

/-- C3 counterexample: two gray colors 2 Delta-E apart (below the 3.0
threshold their classification selects), given to the merger with cap
`M = 3·maxColors = 3`: the list is no longer than the cap, so the merger
returns both entries unchanged instead of merging them into one. -/
theorem gray_pair_not_merged_counterexample :
    mergeThreshold grayA = 3 ∧
    labDistanceCIE94 grayA.lab grayB.lab = 2 ∧
    (2 : ℝ) < 3 ∧
    mergeSimilarColorsConservative [grayA, grayB] (3 * 1) = [grayA, grayB] := by
  refine ⟨?_, ?_, by norm_num, ?_⟩
  · unfold mergeThreshold
    rw [if_neg (by decide)]
  · show labDistanceCIE94 (⟨50, 0, 0⟩ : LAB) (⟨48, 0, 0⟩ : LAB) = 2
    rw [labDistanceCIE94_axis, show (50 : ℝ) - 48 = 2 by norm_num]
    exact abs_of_nonneg (by norm_num)
  · unfold mergeSimilarColorsConservative
    rw [if_pos (by decide)]

/-- C3 amended: the threshold behavior of the claim holds once the merger
actually runs, i.e. when the input list is longer than the cap. On the
four-color list `[redA, redB, grayA, grayB]` with cap 3, the two reds 3
Delta-E apart stay separate groups (red threshold 1.5) while the two grays 2
Delta-E apart merge into a single entry (threshold 3), whose RGB is the
frequency-weighted rounded average and whose frequency is the group sum. -/
theorem red_kept_gray_merged_scenario :
    mergeSimilarColorsConservative [redA, redB, grayA, grayB] (3 * 1) =
      [mergeEntry redA [], mergeEntry redB [], mergeEntry grayA [grayB]] ∧
    (mergeEntry redA []).rgb = ⟨200, 50, 50⟩ ∧
    (mergeEntry redB []).rgb = ⟨190, 60, 60⟩ ∧
    (mergeEntry grayA [grayB]).rgb = ⟨117, 117, 117⟩ ∧
    (mergeEntry grayA [grayB]).frequency = 30 := by
  have dRR : labDistanceCIE94 redA.lab redB.lab = 3 := by
    show labDistanceCIE94 (⟨90, 0, 0⟩ : LAB) (⟨87, 0, 0⟩ : LAB) = 3
    rw [labDistanceCIE94_axis, show (90 : ℝ) - 87 = 3 by norm_num]
    exact abs_of_nonneg (by norm_num)
  have dRA1 : labDistanceCIE94 redA.lab grayA.lab = 40 := by
    show labDistanceCIE94 (⟨90, 0, 0⟩ : LAB) (⟨50, 0, 0⟩ : LAB) = 40
    rw [labDistanceCIE94_axis, show (90 : ℝ) - 50 = 40 by norm_num]
    exact abs_of_nonneg (by norm_num)
  have dRA2 : labDistanceCIE94 redA.lab grayB.lab = 42 := by
    show labDistanceCIE94 (⟨90, 0, 0⟩ : LAB) (⟨48, 0, 0⟩ : LAB) = 42
    rw [labDistanceCIE94_axis, show (90 : ℝ) - 48 = 42 by norm_num]
    exact abs_of_nonneg (by norm_num)
  have dRB1 : labDistanceCIE94 redB.lab grayA.lab = 37 := by
    show labDistanceCIE94 (⟨87, 0, 0⟩ : LAB) (⟨50, 0, 0⟩ : LAB) = 37
    rw [labDistanceCIE94_axis, show (87 : ℝ) - 50 = 37 by norm_num]
    exact abs_of_nonneg (by norm_num)
  have dRB2 : labDistanceCIE94 redB.lab grayB.lab = 39 := by
    show labDistanceCIE94 (⟨87, 0, 0⟩ : LAB) (⟨48, 0, 0⟩ : LAB) = 39
    rw [labDistanceCIE94_axis, show (87 : ℝ) - 48 = 39 by norm_num]
    exact abs_of_nonneg (by norm_num)
  have dGG : labDistanceCIE94 grayA.lab grayB.lab = 2 := by
    show labDistanceCIE94 (⟨50, 0, 0⟩ : LAB) (⟨48, 0, 0⟩ : LAB) = 2
    rw [labDistanceCIE94_axis, show (50 : ℝ) - 48 = 2 by norm_num]
    exact abs_of_nonneg (by norm_num)
  have tRA : mergeThreshold redA = 1.5 := by
    unfold mergeThreshold
    rw [if_pos (by decide)]
  have tRB : mergeThreshold redB = 1.5 := by
    unfold mergeThreshold
    rw [if_pos (by decide)]
  have tGA : mergeThreshold grayA = 3 := by
    unfold mergeThreshold
    rw [if_neg (by decide)]
  have hdec1 : decide (labDistanceCIE94 redA.lab redB.lab < mergeThreshold redA) = false := by
    rw [dRR, tRA]
    exact decide_eq_false (by norm_num)
  have hdec2 : decide (labDistanceCIE94 redA.lab grayA.lab < mergeThreshold redA) = false := by
    rw [dRA1, tRA]
    exact decide_eq_false (by norm_num)
  have hdec3 : decide (labDistanceCIE94 redA.lab grayB.lab < mergeThreshold redA) = false := by
    rw [dRA2, tRA]
    exact decide_eq_false (by norm_num)
  have hdec4 : decide (labDistanceCIE94 redB.lab grayA.lab < mergeThreshold redB) = false := by
    rw [dRB1, tRB]
    exact decide_eq_false (by norm_num)
  have hdec5 : decide (labDistanceCIE94 redB.lab grayB.lab < mergeThreshold redB) = false := by
    rw [dRB2, tRB]
    exact decide_eq_false (by norm_num)
  have hdec6 : decide (labDistanceCIE94 grayA.lab grayB.lab < mergeThreshold grayA) = true := by
    rw [dGG, tGA]
    exact decide_eq_true (by norm_num)
  refine ⟨?_, ?_, ?_, ?_, ?_⟩
  · unfold mergeSimilarColorsConservative
    rw [if_neg (by decide)]
    have hf1 : [redB, grayA, grayB].filter (fun c =>
        decide (labDistanceCIE94 redA.lab c.lab < mergeThreshold redA)) = [] := by
      simp [List.filter_cons, hdec1, hdec2, hdec3]
    have hk1 : [redB, grayA, grayB].filter (fun c =>
        !decide (labDistanceCIE94 redA.lab c.lab < mergeThreshold redA)) =
        [redB, grayA, grayB] := by
      simp [List.filter_cons, hdec1, hdec2, hdec3]
    have hf2 : [grayA, grayB].filter (fun c =>
        decide (labDistanceCIE94 redB.lab c.lab < mergeThreshold redB)) = [] := by
      simp [List.filter_cons, hdec4, hdec5]
    have hk2 : [grayA, grayB].filter (fun c =>
        !decide (labDistanceCIE94 redB.lab c.lab < mergeThreshold redB)) =
        [grayA, grayB] := by
      simp [List.filter_cons, hdec4, hdec5]
    have hf3 : [grayB].filter (fun c =>
        decide (labDistanceCIE94 grayA.lab c.lab < mergeThreshold grayA)) = [grayB] := by
      simp [List.filter_cons, hdec6]
    have hk3 : [grayB].filter (fun c =>
        !decide (labDistanceCIE94 grayA.lab c.lab < mergeThreshold grayA)) = [] := by
      simp [List.filter_cons, hdec6]
    calc mergeGroups (3 * 1) [redA, redB, grayA, grayB]
        = mergeEntry redA ([redB, grayA, grayB].filter (fun c =>
            decide (labDistanceCIE94 redA.lab c.lab < mergeThreshold redA))) ::
          mergeGroups 2 ([redB, grayA, grayB].filter (fun c =>
            !decide (labDistanceCIE94 redA.lab c.lab < mergeThreshold redA))) := rfl
      _ = mergeEntry redA [] :: mergeGroups 2 [redB, grayA, grayB] := by rw [hf1, hk1]
      _ = mergeEntry redA [] :: mergeEntry redB ([grayA, grayB].filter (fun c =>
            decide (labDistanceCIE94 redB.lab c.lab < mergeThreshold redB))) ::
          mergeGroups 1 ([grayA, grayB].filter (fun c =>
            !decide (labDistanceCIE94 redB.lab c.lab < mergeThreshold redB))) := rfl
      _ = mergeEntry redA [] :: mergeEntry redB [] :: mergeGroups 1 [grayA, grayB] := by
          rw [hf2, hk2]
      _ = mergeEntry redA [] :: mergeEntry redB [] :: mergeEntry grayA ([grayB].filter (fun c =>
            decide (labDistanceCIE94 grayA.lab c.lab < mergeThreshold grayA))) ::
          mergeGroups 0 ([grayB].filter (fun c =>
            !decide (labDistanceCIE94 grayA.lab c.lab < mergeThreshold grayA))) := rfl
      _ = [mergeEntry redA [], mergeEntry redB [], mergeEntry grayA [grayB]] := by
          rw [hf3, hk3]
          rfl
  · simp only [mergeEntry, redA, List.map_nil, List.sum_nil, add_zero]
    simp only [RGB.mk.injEq]
    refine ⟨?_, ?_, ?_⟩ <;>
      exact jsRound_eval _ _ (by norm_num) (by norm_num)
  · simp only [mergeEntry, redB, List.map_nil, List.sum_nil, add_zero]
    simp only [RGB.mk.injEq]
    refine ⟨?_, ?_, ?_⟩ <;>
      exact jsRound_eval _ _ (by norm_num) (by norm_num)
  · simp only [mergeEntry, grayA, grayB, List.map_cons, List.map_nil, List.sum_cons,
      List.sum_nil, add_zero]
    simp only [RGB.mk.injEq]
    refine ⟨?_, ?_, ?_⟩ <;>
      exact jsRound_eval _ _ (by norm_num) (by norm_num)
  · rw [mergeEntry_frequency]
    simp only [grayA, grayB, List.map_cons, List.map_nil, List.sum_cons, List.sum_nil, add_zero]
    norm_num
